import Mathlib

/-
Verification of the JARVIS Task Execution Engine and Secure Action Executor.

Shallow embedding of src/jarvis/core/system.py (SystemCore) and
src/jarvis/core/planner.py (TaskManager).  Python strings are modelled as
Lean String values, but all computation is done on their underlying
character lists so every definition reduces in the kernel.  Process launch
and the language-model oracles are effectful; they are modelled as
explicit function parameters, with the repository's own (stub) bodies
provided as the default instantiations.
-/

namespace Jarvis

/-! ### Character helpers -/

/-- The single-quote character (codepoint 39). -/
def squoteChar : Char := Char.ofNat 39

/-- The double-quote character (codepoint 34). -/
def dquoteChar : Char := Char.ofNat 34

/-- The backtick character (codepoint 96). -/
def backtickChar : Char := Char.ofNat 96

/-- Whitespace set of Python shlex: space, tab, carriage return, newline. -/
def isShWhitespace (c : Char) : Bool :=
  c = ' ' || c = '\t' || c = '\r' || c = '\n'

/-! ### shlex.split (POSIX mode, whitespace_split)

Embeds Python `shlex.split(command)` as used by `SystemCore`: POSIX rules,
single quotes literal, double quotes with backslash escaping of the quote
and the backslash, backslash escaping outside quotes, whitespace separates
tokens.  Unbalanced quoting or a trailing backslash raises `ValueError` in
Python; here it returns `Except.error`. -/

/-- Lexer state of the shlex tokenizer. -/
inductive ShState where
  | normal
  | inSingle
  | inDouble
deriving DecidableEq

/-- One pass of the shlex tokenizer.  `cur = some t` means a token with
content `t` is in progress (`some []` is an empty quoted token). -/
def shlexRun (st : ShState) (cs : List Char) (cur : Option (List Char))
    (acc : List String) : Except String (List String) :=
  match st, cs with
  | ShState.normal, [] =>
    match cur with
    | none => Except.ok acc
    | some t => Except.ok (acc ++ [String.mk t])
  | ShState.normal, c :: rest =>
    if isShWhitespace c then
      match cur with
      | none => shlexRun ShState.normal rest none acc
      | some t => shlexRun ShState.normal rest none (acc ++ [String.mk t])
    else if c = '\\' then
      match rest with
      | [] => Except.error "No escaped character"
      | d :: rest2 => shlexRun ShState.normal rest2 (some (cur.getD [] ++ [d])) acc
    else if c = squoteChar then
      shlexRun ShState.inSingle rest (some (cur.getD [])) acc
    else if c = dquoteChar then
      shlexRun ShState.inDouble rest (some (cur.getD [])) acc
    else
      shlexRun ShState.normal rest (some (cur.getD [] ++ [c])) acc
  | ShState.inSingle, [] => Except.error "No closing quotation"
  | ShState.inSingle, c :: rest =>
    if c = squoteChar then shlexRun ShState.normal rest cur acc
    else shlexRun ShState.inSingle rest (some (cur.getD [] ++ [c])) acc
  | ShState.inDouble, [] => Except.error "No closing quotation"
  | ShState.inDouble, c :: rest =>
    if c = dquoteChar then shlexRun ShState.normal rest cur acc
    else if c = '\\' then
      match rest with
      | [] => Except.error "No escaped character"
      | d :: rest2 =>
        if d = dquoteChar || d = '\\' then
          shlexRun ShState.inDouble rest2 (some (cur.getD [] ++ [d])) acc
        else
          shlexRun ShState.inDouble rest2 (some (cur.getD [] ++ [c, d])) acc
    else shlexRun ShState.inDouble rest (some (cur.getD [] ++ [c])) acc

/-- Embeds `shlex.split(command)` (POSIX mode). -/
def shlexSplit (s : String) : Except String (List String) :=
  shlexRun ShState.normal s.data none []

/-! ### pathlib.PurePosixPath string form and name

`SystemCore._validate_command` computes `Path(cmd_parts[0]).name` and
`str(Path(arg))`.  PurePosixPath drops empty and single-dot components,
keeps a root of `/` (or `//` for exactly two leading slashes), and renders
the empty path as `.`. -/

/-- Split a character list on slashes. -/
def splitOnSlash : List Char → List (List Char)
  | [] => [[]]
  | c :: rest =>
    match splitOnSlash rest with
    | [] => [[]]
    | t :: ts => if c = '/' then [] :: t :: ts else (c :: t) :: ts

/-- Join components with a slash separator. -/
def joinSlash : List (List Char) → List Char
  | [] => []
  | [t] => t
  | t :: ts => t ++ '/' :: joinSlash ts

/-- Root of a POSIX path: exactly two leading slashes give root `//`,
any other leading slash run gives `/`, otherwise no root. -/
def posixRootChars : List Char → List Char
  | '/' :: '/' :: '/' :: _ => ['/']
  | '/' :: '/' :: _ => ['/', '/']
  | '/' :: _ => ['/']
  | _ => []

/-- Non-root components of a POSIX path: empty and `.` parts dropped. -/
def pathPartsChars (cs : List Char) : List (List Char) :=
  (splitOnSlash cs).filter (fun p => !p.isEmpty && !(p == ['.']))

/-- Embeds Python `str(PurePosixPath(s))`. -/
def pathStr (s : String) : String :=
  let root := posixRootChars s.data
  let parts := pathPartsChars s.data
  if root.isEmpty && parts.isEmpty then "."
  else String.mk (root ++ joinSlash parts)

/-- Embeds Python `PurePosixPath(s).name` (last component, or empty). -/
def pathName (s : String) : String :=
  String.mk (((pathPartsChars s.data).getLast?).getD [])

/-- Embeds Python `s.startswith(p)`. -/
def charsStartWith : List Char → List Char → Bool
  | _, [] => true
  | [], _ :: _ => false
  | c :: cs, d :: ds => c = d && charsStartWith cs ds

/-- Embeds Python `s.startswith(p)` on strings. -/
def strStartsWith (s p : String) : Bool :=
  charsStartWith s.data p.data

/-! ### SystemCore: security rules and validation (system.py lines 27-151) -/

/-- Security configuration loaded by `SystemCore._load_security_rules`.
The runtime limit only matters through the process-outcome oracle and is
not needed here. -/
structure SystemConfig where
  command_blocklist : List String
  allowed_paths : List String
deriving DecidableEq

/-- Exceptions `_validate_command` can raise: `SecurityViolation` from the
rule checks, or `ValueError` escaping from `shlex.split` (caught by the
generic handler in `execute_command`). -/
inductive VError where
  | secViolation : String → VError
  | valueError : String → VError
deriving DecidableEq

/-- Embeds the regex search for `[;&|]` (command chaining). -/
def matchChainClass (cs : List Char) : Bool :=
  cs.any (fun c => c = ';' || c = '&' || c = '|')

/-- Embeds the regex search for the two-character pattern of a greater-than
sign followed by a greater-than sign or an ampersand (the source's
output-redirection pattern). -/
def matchRedirOut : List Char → Bool
  | [] => false
  | c :: rest =>
    (c = '>' && (match rest with
      | [] => false
      | d :: _ => d = '>' || d = '&')) || matchRedirOut rest

/-- Embeds the regex search for the less-than sign (input redirection). -/
def matchRedirIn (cs : List Char) : Bool :=
  cs.any (fun c => c = '<')

/-- Embeds the regex search for a dollar sign followed by an opening
parenthesis (command substitution). -/
def matchSubstDollar : List Char → Bool
  | [] => false
  | c :: rest =>
    (c = '$' && (match rest with
      | [] => false
      | d :: _ => d = '(')) || matchSubstDollar rest

/-- Embeds the regex search for a backtick (backtick substitution). -/
def matchBacktick (cs : List Char) : Bool :=
  cs.any (fun c => c = backtickChar)

/-- Embeds the `for pattern in dangerous_patterns` loop: the first pattern
found in the raw command string, in source order. -/
def findDangerous (cs : List Char) : Option String :=
  if matchChainClass cs then some "chaining"
  else if matchRedirOut cs then some "output redirection"
  else if matchRedirIn cs then some "input redirection"
  else if matchSubstDollar cs then some "command substitution"
  else if matchBacktick cs then some "backtick substitution"
  else none

/-- Embeds the `for arg in cmd_parts[1:]` path-allowlist loop of
`_validate_command`: an absolute-path argument must have some allowed
path as a plain string prefix of its `str(Path(...))` form. -/
def checkPaths (cfg : SystemConfig) : List String → Except VError Unit
  | [] => Except.ok ()
  | a :: rest =>
    if strStartsWith a "/" then
      if cfg.allowed_paths.any (fun al => strStartsWith (pathStr a) al) then
        checkPaths cfg rest
      else Except.error (VError.secViolation ("Path not allowed: " ++ pathStr a))
    else checkPaths cfg rest

/-- Embeds `SystemCore._validate_command` (system.py lines 113-151):
tokenize, reject empty, reject blocklisted base command, reject dangerous
patterns in the raw string, check absolute-path arguments. -/
def validate_command (cfg : SystemConfig) (command : String) : Except VError Unit :=
  match shlexSplit command with
  | Except.error m => Except.error (VError.valueError m)
  | Except.ok [] => Except.error (VError.secViolation "Empty command")
  | Except.ok (c0 :: args) =>
    if cfg.command_blocklist.contains (pathName c0) then
      Except.error (VError.secViolation ("Command is blocked: " ++ pathName c0))
    else
      match findDangerous command.data with
      | some p => Except.error (VError.secViolation ("Dangerous pattern detected: " ++ p))
      | none => checkPaths cfg args

/-! ### SystemCore.execute_command (system.py lines 33-111) -/

/-- Behaviour of the spawned child process, modelling
`asyncio.create_subprocess_exec` plus `asyncio.wait_for`:
it completes with a return code and output, hits the timeout, or the
spawn itself raises (for example a missing executable). -/
inductive ProcOutcome where
  | completed : Int → String → String → ProcOutcome
  | timedOut : ProcOutcome
  | spawnError : String → ProcOutcome

/-- One entry of `SystemCore.command_history` (the audit ledger).  The
wall-clock timestamp and the opaque context are not modellable and carry
no logic; the fields that the control flow writes are kept. -/
structure CmdRecord where
  command : String
  status : String
deriving DecidableEq

/-- The result dictionary returned by `execute_command`. -/
structure ExecOutcome where
  status : String
  returncode : Option Int
  stdout : String
  stderr : String
  errMsg : Option String

/-- Embeds `SystemCore.execute_command` (system.py lines 33-111).
`env` models the child process behaviour for a given argv.  Returns the
result dictionary, the updated `command_history`, and the argv actually
handed to `create_subprocess_exec` (`none` when no process was spawned).
Mirrors the source control flow: validation first (a `SecurityViolation`
or a `ValueError` from tokenization reaches the handlers before the
history append), then tokenization, then the history append, then the
spawn; on timeout the record is updated to `timeout`, while a spawn
exception leaves the already-appended record at `pending`. -/
def execute_command (env : List String → ProcOutcome) (cfg : SystemConfig)
    (history : List CmdRecord) (command : String) :
    ExecOutcome × List CmdRecord × Option (List String) :=
  match validate_command cfg command with
  | Except.error (VError.secViolation m) =>
    (⟨"security_violation", none, "", "", some m⟩, history, none)
  | Except.error (VError.valueError m) =>
    (⟨"error", none, "", "", some m⟩, history, none)
  | Except.ok _ =>
    match shlexSplit command with
    | Except.error m => (⟨"error", none, "", "", some m⟩, history, none)
    | Except.ok cmdArgs =>
      match env cmdArgs with
      | ProcOutcome.completed rc out err =>
        let st := if rc = 0 then "success" else "error"
        (⟨st, some rc, out, err, none⟩, history ++ [⟨command, st⟩], some cmdArgs)
      | ProcOutcome.timedOut =>
        (⟨"timeout", none, "", "", some "Command execution timed out"⟩,
          history ++ [⟨command, "timeout"⟩], some cmdArgs)
      | ProcOutcome.spawnError m =>
        (⟨"error", none, "", "", some m⟩, history ++ [⟨command, "pending"⟩], none)

/-! ### TaskManager: plan store and task execution (planner.py) -/

/-- One step of a task plan (the `TaskStep` dataclass, planner.py 33-40). -/
structure TaskStep where
  action : String
  thought : String
  observation : Option String
  reflection : Option String
  status : String
deriving DecidableEq

/-- One entry of the `results` list built by `execute_task`. -/
structure ResultRecord where
  action : String
  thought : String
  observation : String
  reflection : String
deriving DecidableEq

/-- The `TaskStatus` enum (planner.py 42-47). -/
inductive TaskStatus where
  | pending
  | in_progress
  | completed
  | failed
  | blocked
deriving DecidableEq

/-- The dictionary returned by `execute_task` on normal completion. -/
structure RunResult where
  status : String
  results : List ResultRecord
deriving DecidableEq

/-- The `active_tasks` dict, as an insertion-ordered association list. -/
abbrev TaskStore := List (String × List TaskStep)

/-- Dict lookup `active_tasks[task_id]`. -/
def lookupTask : TaskStore → String → Option (List TaskStep)
  | [], _ => none
  | (k, v) :: rest, tid => if k = tid then some v else lookupTask rest tid

/-- Dict assignment `active_tasks[task_id] = steps`. -/
def setTask : TaskStore → String → List TaskStep → TaskStore
  | [], tid, v => [(tid, v)]
  | (k, w) :: rest, tid, v =>
    if k = tid then (tid, v) :: rest else (k, w) :: setTask rest tid v

/-- Embeds `TaskManager._execute_step` (planner.py 217-220): the body is a
stub that returns a fixed string. -/
def execute_step (_step : TaskStep) : String :=
  "Step execution result"

/-- Embeds `TaskManager._reflect_on_step` (planner.py 222-225): the body is
a stub that returns a fixed string. -/
def reflect_on_step (_result : String) : String :=
  "Step reflection"

/-- Embeds `TaskManager._needs_replanning` (planner.py 227-230): the body
is a stub that returns `False` for every reflection. -/
def needs_replanning (_reflection : String) : Bool :=
  false

/-- Embeds `TaskManager._replan_task` (planner.py 232-237): the body is a
stub that returns an empty plan. -/
def replan_task (_previousResults : List ResultRecord) : List TaskStep :=
  []

/-- Embeds `TaskManager._create_plan` (planner.py 208-215): the body is a
stub that returns an empty plan for every thought. -/
def create_plan (_thought : String) : List TaskStep :=
  []

/-- Embeds `TaskManager.create_task` (planner.py 116-146).  The language
model call `_generate_thought` is effectful; its outcome is the
`thoughtOracle` argument (`Except.error` models the call raising, which
`create_task` logs and re-raises).  On success the plan from
`_create_plan` is stored under the fresh id and the id is returned. -/
def create_task (tasks : TaskStore) (tid : String)
    (thoughtOracle : Except String String) :
    Except String (String × TaskStore) :=
  match thoughtOracle with
  | Except.error e => Except.error e
  | Except.ok thought => Except.ok (tid, setTask tasks tid (create_plan thought))

/-- The in-place update `step.observation = ...; step.reflection = ...;
step.status = "completed"` performed on the current step by the loop body
of `execute_task` (planner.py 172-175). -/
def stepDoneOf (exec : TaskStep → String) (refl : String → String)
    (step : TaskStep) : TaskStep :=
  ⟨step.action, step.thought, some (exec step), some (refl (exec step)), "completed"⟩

/-- The result dictionary appended by the loop body of `execute_task`
(planner.py 177-182). -/
def recordOf (exec : TaskStep → String) (refl : String → String)
    (step : TaskStep) : ResultRecord :=
  ⟨step.action, step.thought, exec step, refl (exec step)⟩

/-- The `for step in steps` loop of `TaskManager.execute_task`
(planner.py 165-187), with Python list-iterator semantics made explicit:
the loop walks the list by position, and `steps.extend(new_plan)` during
iteration grows the list being walked, so appended steps are visited too.
The four method calls in the body are parameters so that the loop can be
studied under the repository's stub oracles (`execute_step`,
`reflect_on_step`, `needs_replanning`, `replan_task`) as well as under
hypothetical oracles; `fuel` bounds the number of iterations modelled,
`none` meaning the loop has not finished within that bound. -/
def execLoop (exec : TaskStep → String) (refl : String → String)
    (nr : String → Bool) (rp : List ResultRecord → List TaskStep)
    (fuel : Nat) (steps : List TaskStep) (i : Nat) (results : List ResultRecord) :
    Option (List ResultRecord × List TaskStep) :=
  if h : i < steps.length then
    match fuel with
    | 0 => none
    | Nat.succ fuel2 =>
      let step := steps.get ⟨i, h⟩
      let steps2 := steps.set i (stepDoneOf exec refl step)
      let results2 := results ++ [recordOf exec refl step]
      let steps3 := if nr (refl (exec step)) then steps2 ++ rp results2 else steps2
      execLoop exec refl nr rp fuel2 steps3 (i + 1) results2
  else
    some (results, steps)

/-- Embeds `TaskManager.execute_task` (planner.py 148-193).  An unknown id
raises `ValueError` (modelled as `Except.error`); otherwise the step loop
runs and, on completion, the result dictionary with status `success` is
returned together with the task store holding the (in-place mutated)
final step list.  `Except.ok none` means the loop did not finish within
`fuel` iterations. -/
def execute_task (exec : TaskStep → String) (refl : String → String)
    (nr : String → Bool) (rp : List ResultRecord → List TaskStep)
    (fuel : Nat) (tasks : TaskStore) (tid : String) :
    Except String (Option (RunResult × TaskStore)) :=
  match lookupTask tasks tid with
  | none => Except.error ("Task " ++ tid ++ " not found")
  | some steps =>
    match execLoop exec refl nr rp fuel steps 0 [] with
    | none => Except.ok none
    | some (results, fin) =>
      Except.ok (some (⟨"success", results⟩, setTask tasks tid fin))

/-- Embeds `TaskManager.get_task_status` (planner.py 243-260). -/
def get_task_status (tasks : TaskStore) (tid : String) :
    Except String TaskStatus :=
  match lookupTask tasks tid with
  | none => Except.error ("Task " ++ tid ++ " not found")
  | some steps =>
    if steps.isEmpty then Except.ok TaskStatus.pending
    else
      let c := (steps.filter (fun s => s.status == "completed")).length
      if c = 0 then Except.ok TaskStatus.pending
      else if c = steps.length then Except.ok TaskStatus.completed
      else Except.ok TaskStatus.in_progress

/-! ### Concrete fixtures used by the closed statements below -/

/-- A process environment in which every spawned command exits cleanly. -/
def envOk : List String → ProcOutcome :=
  fun _ => ProcOutcome.completed 0 "" ""

/-- The default security configuration: empty blocklist, `/tmp` allowed
(system.py lines 29-30 defaults). -/
def cfg0 : SystemConfig := ⟨[], ["/tmp"]⟩

/-- A step that has not been run yet. -/
def demoPending : TaskStep := ⟨"ls /tmp", "list files", none, none, "pending"⟩

/-- A step already marked completed by an earlier partial run. -/
def demoDone : TaskStep :=
  ⟨"ls /tmp", "list files", some "old observation", some "old reflection", "completed"⟩

/-- A pathological reflection policy that requests replanning after every
step (the spec's liveness scenario). -/
def alwaysReplan (_reflection : String) : Bool :=
  true

/-- A replanner that adds one fresh step on every replanning round. -/
def replanOne (_results : List ResultRecord) : List TaskStep :=
  [⟨"extra action", "extra thought", none, none, "pending"⟩]

/-- The step loop of `execute_task` finishes in some number of
iterations when run on `steps` from the start. -/
def taskTerminates (exec : TaskStep → String) (refl : String → String)
    (nr : String → Bool) (rp : List ResultRecord → List TaskStep)
    (steps : List TaskStep) : Prop :=
  ∃ fuel r, execLoop exec refl nr rp fuel steps 0 [] = some r

/-! ### Equation lemmas for the step loop -/

theorem execLoop_stop (exec : TaskStep → String) (refl : String → String)
    (nr : String → Bool) (rp : List ResultRecord → List TaskStep)
    (fuel : Nat) (steps : List TaskStep) (i : Nat) (results : List ResultRecord)
    (h : ¬ i < steps.length) :
    execLoop exec refl nr rp fuel steps i results = some (results, steps) := by
  unfold execLoop
  rw [dif_neg h]

theorem execLoop_zero (exec : TaskStep → String) (refl : String → String)
    (nr : String → Bool) (rp : List ResultRecord → List TaskStep)
    (steps : List TaskStep) (i : Nat) (results : List ResultRecord)
    (h : i < steps.length) :
    execLoop exec refl nr rp 0 steps i results = none := by
  unfold execLoop
  rw [dif_pos h]

theorem execLoop_succ (exec : TaskStep → String) (refl : String → String)
    (nr : String → Bool) (rp : List ResultRecord → List TaskStep)
    (fuel2 : Nat) (steps : List TaskStep) (i : Nat) (results : List ResultRecord)
    (h : i < steps.length) :
    execLoop exec refl nr rp (Nat.succ fuel2) steps i results =
      execLoop exec refl nr rp fuel2
        (if nr (refl (exec (steps.get ⟨i, h⟩)))
          then steps.set i (stepDoneOf exec refl (steps.get ⟨i, h⟩)) ++
            rp (results ++ [recordOf exec refl (steps.get ⟨i, h⟩)])
          else steps.set i (stepDoneOf exec refl (steps.get ⟨i, h⟩)))
        (i + 1)
        (results ++ [recordOf exec refl (steps.get ⟨i, h⟩)]) := by
  conv_lhs => unfold execLoop
  rw [dif_pos h]

/-! ### Validation lemmas -/

theorem shlexSplit_ok_of_validate (cfg : SystemConfig) (cmd : String)
    (h : validate_command cfg cmd = Except.ok ()) :
    ∃ ps, shlexSplit cmd = Except.ok ps := by
  unfold validate_command at h
  cases hs : shlexSplit cmd with
  | error m => rw [hs] at h; exact absurd h (by simp)
  | ok ps => exact ⟨ps, rfl⟩

theorem matchChainClass_of_mem {cs : List Char} {c : Char}
    (hc : c = ';' ∨ c = '&' ∨ c = '|') (h : c ∈ cs) :
    matchChainClass cs = true := by
  unfold matchChainClass
  rw [List.any_eq_true]
  exact ⟨c, h, by rcases hc with h | h | h <;> simp [h]⟩

theorem matchRedirIn_of_mem {cs : List Char} (h : '<' ∈ cs) :
    matchRedirIn cs = true := by
  unfold matchRedirIn
  rw [List.any_eq_true]
  exact ⟨'<', h, by simp⟩

theorem matchBacktick_of_mem {cs : List Char} (h : backtickChar ∈ cs) :
    matchBacktick cs = true := by
  unfold matchBacktick
  rw [List.any_eq_true]
  exact ⟨backtickChar, h, by simp⟩

theorem matchRedirOut_append (pre post : List Char) (d : Char)
    (hd : d = '>' ∨ d = '&') :
    matchRedirOut (pre ++ '>' :: d :: post) = true := by
  induction pre with
  | nil => rcases hd with h | h <;> subst h <;> simp [matchRedirOut]
  | cons c pre2 ih => simp [matchRedirOut, ih]

theorem matchRedirOut_of_found {cs : List Char}
    (h : List.IsInfix ['>', '>'] cs ∨ List.IsInfix ['>', '&'] cs) :
    matchRedirOut cs = true := by
  rcases h with ⟨s, t, hst⟩ | ⟨s, t, hst⟩ <;>
    rw [← hst, List.append_assoc] <;>
    [exact matchRedirOut_append s t '>' (Or.inl rfl);
     exact matchRedirOut_append s t '&' (Or.inr rfl)]

theorem matchSubstDollar_append (pre post : List Char) :
    matchSubstDollar (pre ++ '$' :: '(' :: post) = true := by
  induction pre with
  | nil => simp [matchSubstDollar]
  | cons c pre2 ih => simp [matchSubstDollar, ih]

theorem matchSubstDollar_of_found {cs : List Char}
    (h : List.IsInfix ['$', '('] cs) :
    matchSubstDollar cs = true := by
  obtain ⟨s, t, hst⟩ := h
  rw [← hst, List.append_assoc]
  exact matchSubstDollar_append s t

theorem findDangerous_isSome_of {cs : List Char}
    (h : matchChainClass cs || matchRedirOut cs || matchRedirIn cs ||
      matchSubstDollar cs || matchBacktick cs = true) :
    ∃ p, findDangerous cs = some p := by
  unfold findDangerous
  split_ifs <;> first | exact ⟨_, rfl⟩ | simp_all

theorem validate_secViolation_of_dangerous (cfg : SystemConfig) (cmd : String)
    (ps : List String) (hs : shlexSplit cmd = Except.ok ps)
    (p : String) (hd : findDangerous cmd.data = some p) :
    ∃ m, validate_command cfg cmd = Except.error (VError.secViolation m) := by
  rcases ps with _ | ⟨c0, args⟩
  · exact ⟨"Empty command", by unfold validate_command; rw [hs]⟩
  · by_cases hb : cfg.command_blocklist.contains (pathName c0)
    · refine ⟨"Command is blocked: " ++ pathName c0, ?_⟩
      unfold validate_command
      simp only [hs, hb]
      rfl
    · refine ⟨"Dangerous pattern detected: " ++ p, ?_⟩
      unfold validate_command
      simp only [hs, hb, hd]
      rfl

/-! ### Claim C1 -/

/-- C1 counterexample: the claim lists the single greater-than sign among
the characters that force a `security_violation` outcome with no process
launch, but the source's redirection pattern only matches it when
followed by another greater-than sign or an ampersand.  For the action
`cat > /tmp/x` the executor validates, spawns the process and reports its
exit status; and an action that contains a semicolon but fails
tokenization yields an `error` outcome, not `security_violation`. -/
theorem C1_counterexample :
    '>' ∈ "cat > /tmp/x".data ∧
    (execute_command envOk cfg0 [] "cat > /tmp/x").1.status = "success" ∧
    (execute_command envOk cfg0 [] "cat > /tmp/x").2.2 = some ["cat", ">", "/tmp/x"] ∧
    ';' ∈ "echo \"a;".data ∧
    (execute_command envOk cfg0 [] "echo \"a;").1.status = "error" ∧
    (execute_command envOk cfg0 [] "echo \"a;").2.2 = none :=
  ⟨by decide, rfl, rfl, by decide, rfl, rfl⟩

/-- C1 (amended): for every action string that tokenizes successfully and
contains a semicolon, ampersand, pipe, less-than sign, backtick, the
two-character sequence dollar-open-parenthesis, or a greater-than sign
immediately followed by a greater-than sign or an ampersand,
`execute_command` returns an outcome with status `security_violation` and
never launches a child process.  (A lone greater-than sign is not caught
by the pattern check, and an action that fails tokenization produces an
`error` outcome instead.) -/
theorem C1_dangerous_is_rejected (env : List String → ProcOutcome)
    (cfg : SystemConfig) (hist : List CmdRecord) (cmd : String)
    (ps : List String) (hsplit : shlexSplit cmd = Except.ok ps)
    (hbad : (';' ∈ cmd.data ∨ '&' ∈ cmd.data ∨ '|' ∈ cmd.data ∨
        '<' ∈ cmd.data ∨ backtickChar ∈ cmd.data) ∨
      List.IsInfix ['$', '('] cmd.data ∨
      List.IsInfix ['>', '>'] cmd.data ∨ List.IsInfix ['>', '&'] cmd.data) :
    (execute_command env cfg hist cmd).1.status = "security_violation" ∧
    (execute_command env cfg hist cmd).2.2 = none := by
  have hsome : ∃ p, findDangerous cmd.data = some p := by
    apply findDangerous_isSome_of
    rcases hbad with (h | h | h | h | h) | h | h | h
    · simp [matchChainClass_of_mem (Or.inl rfl) h]
    · simp [matchChainClass_of_mem (Or.inr (Or.inl rfl)) h]
    · simp [matchChainClass_of_mem (Or.inr (Or.inr rfl)) h]
    · simp [matchRedirIn_of_mem h]
    · simp [matchBacktick_of_mem h]
    · simp [matchSubstDollar_of_found h]
    · simp [matchRedirOut_of_found (Or.inl h)]
    · simp [matchRedirOut_of_found (Or.inr h)]
  obtain ⟨p, hp⟩ := hsome
  obtain ⟨m, hv⟩ := validate_secViolation_of_dangerous cfg cmd ps hsplit p hp
  unfold execute_command
  rw [hv]
  exact ⟨rfl, rfl⟩

/-- C1 witness: the amended theorem applied to the action `ls; x`. -/
theorem C1_witness :
    shlexSplit "ls; x" = Except.ok ["ls;", "x"] ∧ ';' ∈ "ls; x".data ∧
    (execute_command envOk cfg0 [] "ls; x").1.status = "security_violation" ∧
    (execute_command envOk cfg0 [] "ls; x").2.2 = none :=
  ⟨rfl, by decide,
    (C1_dangerous_is_rejected envOk cfg0 [] "ls; x" ["ls;", "x"] rfl
      (Or.inl (Or.inl (by decide)))).1,
    (C1_dangerous_is_rejected envOk cfg0 [] "ls; x" ["ls;", "x"] rfl
      (Or.inl (Or.inl (by decide)))).2⟩

/-! ### Claim C2 -/

/-- C2 counterexample: a `security_violation` outcome appends no audit
entry at all — the history append sits after validation in
`execute_command`, so a rejected action leaves the history unchanged. -/
theorem C2_counterexample :
    (execute_command envOk cfg0 [] "ls; x").1.status = "security_violation" ∧
    (execute_command envOk cfg0 [] "ls; x").2.1 = [] :=
  ⟨rfl, rfl⟩

/-- C2 (amended): `execute_command` appends exactly one history entry
when validation succeeds (whatever the process outcome: clean exit,
non-zero exit, timeout, or spawn failure), and appends nothing when
validation raises — so `security_violation` outcomes and tokenization
errors leave the audit history unchanged. -/
theorem C2_audit_iff_validated (env : List String → ProcOutcome)
    (cfg : SystemConfig) (hist : List CmdRecord) (cmd : String) :
    (validate_command cfg cmd = Except.ok () →
      ∃ entry, (execute_command env cfg hist cmd).2.1 = hist ++ [entry]) ∧
    (∀ e, validate_command cfg cmd = Except.error e →
      (execute_command env cfg hist cmd).2.1 = hist) := by
  constructor
  · intro hv
    obtain ⟨ps, hs⟩ := shlexSplit_ok_of_validate cfg cmd hv
    unfold execute_command
    simp only [hv, hs]
    cases henv : env ps with
    | completed rc out err => exact ⟨_, rfl⟩
    | timedOut => exact ⟨_, rfl⟩
    | spawnError m => exact ⟨_, rfl⟩
  · intro e hv
    unfold execute_command
    rw [hv]
    cases e <;> rfl

/-- C2 witness: the amended theorem applied to the accepted action
`echo hi`. -/
theorem C2_witness :
    validate_command cfg0 "echo hi" = Except.ok () ∧
    (∃ entry, (execute_command envOk cfg0 [] "echo hi").2.1 = [] ++ [entry]) :=
  ⟨rfl, (C2_audit_iff_validated envOk cfg0 [] "echo hi").1 rfl⟩

/-! ### Claim C3 -/

/-- C3: a child process is launched only after validation has accepted
the action, and the argv handed to the process is exactly the token list
from shell-word splitting — the command is executed directly, never
re-interpreted by a shell. -/
theorem C3_no_spawn_without_validation (env : List String → ProcOutcome)
    (cfg : SystemConfig) (hist : List CmdRecord) (cmd : String)
    (args : List String)
    (h : (execute_command env cfg hist cmd).2.2 = some args) :
    validate_command cfg cmd = Except.ok () ∧ shlexSplit cmd = Except.ok args := by
  unfold execute_command at h
  cases hv : validate_command cfg cmd with
  | error e =>
    cases e <;> simp [hv] at h
  | ok u =>
    cases u
    refine ⟨rfl, ?_⟩
    simp only [hv] at h
    cases hs : shlexSplit cmd with
    | error m => simp [hs] at h
    | ok ps =>
      simp only [hs] at h
      cases henv : env ps with
      | completed rc out err =>
        simp only [henv, Option.some.injEq] at h
        subst h
        rfl
      | timedOut =>
        simp only [henv, Option.some.injEq] at h
        subst h
        rfl
      | spawnError m =>
        simp [henv] at h

/-- C3 witness: the theorem applied to the accepted action `echo hi`,
whose spawned argv is its token list. -/
theorem C3_witness :
    (execute_command envOk cfg0 [] "echo hi").2.2 = some ["echo", "hi"] ∧
    validate_command cfg0 "echo hi" = Except.ok () ∧
    shlexSplit "echo hi" = Except.ok ["echo", "hi"] :=
  ⟨rfl,
    (C3_no_spawn_without_validation envOk cfg0 [] "echo hi" ["echo", "hi"] rfl).1,
    (C3_no_spawn_without_validation envOk cfg0 [] "echo hi" ["echo", "hi"] rfl).2⟩

/-! ### Claim C10 -/

/-- C10: the allowed-path check is a plain string-prefix test on the
rendered path: an absolute-path argument passes whenever the string form
of `Path(arg)` starts with some configured allowed path, so with `/tmp`
allowed, `/tmpevil` and `/tmp-other` pass full validation even though
they lie outside the `/tmp` directory. -/
theorem C10_path_check_is_plain_string_test :
    (∀ (cfg : SystemConfig) (arg : String) (rest : List String),
      strStartsWith arg "/" = true →
      (∃ al ∈ cfg.allowed_paths, strStartsWith (pathStr arg) al = true) →
      checkPaths cfg (arg :: rest) = checkPaths cfg rest) ∧
    validate_command cfg0 "cat /tmpevil" = Except.ok () ∧
    validate_command cfg0 "ls /tmp-other" = Except.ok () ∧
    strStartsWith (pathStr "/tmpevil") "/tmp" = true := by
  refine ⟨?_, rfl, rfl, rfl⟩
  rintro cfg arg rest h1 ⟨al, hal, h2⟩
  have hany : cfg.allowed_paths.any (fun a => strStartsWith (pathStr arg) a) = true :=
    List.any_eq_true.mpr ⟨al, hal, h2⟩
  conv_lhs => unfold checkPaths
  simp only [h1, hany, if_true]

/-- C10 witness: the prefix test applied to the argument `/tmpevil`
under the default configuration. -/
theorem C10_witness :
    strStartsWith "/tmpevil" "/" = true ∧
    (∃ al ∈ cfg0.allowed_paths, strStartsWith (pathStr "/tmpevil") al = true) ∧
    checkPaths cfg0 ["/tmpevil"] = checkPaths cfg0 [] :=
  ⟨rfl, ⟨"/tmp", by simp [cfg0], rfl⟩,
    C10_path_check_is_plain_string_test.1 cfg0 "/tmpevil" [] rfl
      ⟨"/tmp", by simp [cfg0], rfl⟩⟩

/-! ### Claim C4 -/

theorem lookupTask_setTask (tasks : TaskStore) (tid : String)
    (v : List TaskStep) : lookupTask (setTask tasks tid v) tid = some v := by
  induction tasks with
  | nil => simp [setTask, lookupTask]
  | cons kv rest ih =>
    obtain ⟨k, w⟩ := kv
    by_cases h : k = tid
    · simp [setTask, lookupTask, h]
    · simp [setTask, lookupTask, h, ih]

/-- C4 counterexample: with a thought oracle that succeeds, `create_task`
registers the task even though the plan builder returns zero steps — no
planning error is raised and the store afterwards maps the new id to an
empty step list. -/
theorem C4_counterexample :
    create_task [] "task_1" (Except.ok "some thought") =
      Except.ok ("task_1", [("task_1", ([] : List TaskStep))]) ∧
    lookupTask [("task_1", ([] : List TaskStep))] "task_1" = some [] :=
  ⟨rfl, rfl⟩

/-- C4 (amended): when the thought oracle errors the exception propagates
and no task is registered; when it succeeds, `_create_plan` returns zero
steps and `create_task` nonetheless registers the task id with an empty
step list and returns it — there is no `PlanningError`. -/
theorem C4_empty_plan_is_registered (tasks : TaskStore) (tid e th : String) :
    create_task tasks tid (Except.error e) = Except.error e ∧
    create_task tasks tid (Except.ok th) =
      Except.ok (tid, setTask tasks tid (create_plan th)) ∧
    create_plan th = [] ∧
    lookupTask (setTask tasks tid (create_plan th)) tid = some [] := by
  refine ⟨rfl, rfl, rfl, ?_⟩
  rw [create_plan]
  exact lookupTask_setTask tasks tid []

/-- C4 witness: the amended theorem at a concrete store and oracle. -/
theorem C4_witness :
    create_task [("old", [demoDone])] "t2" (Except.error "oracle down") =
      Except.error "oracle down" ∧
    lookupTask (setTask [("old", [demoDone])] "t2" (create_plan "th")) "t2" =
      some [] :=
  ⟨(C4_empty_plan_is_registered [("old", [demoDone])] "t2" "oracle down" "th").1,
    (C4_empty_plan_is_registered [("old", [demoDone])] "t2" "oracle down" "th").2.2.2⟩

/-! ### Claim C8 -/

theorem execLoop_noReplan_length (exec : TaskStep → String)
    (refl : String → String) (rp : List ResultRecord → List TaskStep) :
    ∀ (fuel : Nat) (steps : List TaskStep) (i : Nat)
      (results res : List ResultRecord) (fin : List TaskStep),
      execLoop exec refl needs_replanning rp fuel steps i results = some (res, fin) →
      fin.length = steps.length := by
  intro fuel
  induction fuel with
  | zero =>
    intro steps i results res fin h
    by_cases hi : i < steps.length
    · rw [execLoop_zero exec refl needs_replanning rp steps i results hi] at h
      exact absurd h (by simp)
    · rw [execLoop_stop exec refl needs_replanning rp 0 steps i results hi] at h
      simp only [Option.some.injEq, Prod.mk.injEq] at h
      rw [← h.2]
  | succ f ih =>
    intro steps i results res fin h
    by_cases hi : i < steps.length
    · rw [execLoop_succ exec refl needs_replanning rp f steps i results hi] at h
      simp only [needs_replanning, Bool.false_eq_true, if_false] at h
      have h2 := ih _ _ _ _ _ h
      rw [h2, List.length_set]
    · rw [execLoop_stop exec refl needs_replanning rp _ steps i results hi] at h
      simp only [Option.some.injEq, Prod.mk.injEq] at h
      rw [← h.2]

/-- C8 counterexample: the repository's default reflection policy
returns `False` for every reflection — in particular for reflections of
`security_violation` and `timeout` outcomes, where the claim asserts it
returns true. -/
theorem C8_counterexample :
    needs_replanning (reflect_on_step "security_violation") = false ∧
    needs_replanning "security_violation" = false ∧
    needs_replanning "timeout" = false :=
  ⟨rfl, rfl, rfl⟩

/-- C8 (amended): the default reflection policy requests replanning for
no outcome at all — it returns false for every reflection, including
those of `security_violation` and `timeout` outcomes, and consequently a
run of the step loop under the default policy never extends the step
list. -/
theorem C8_default_policy_never_replans :
    (∀ r : String, needs_replanning r = false) ∧
    (∀ (exec : TaskStep → String) (refl : String → String)
      (rp : List ResultRecord → List TaskStep) (fuel : Nat)
      (steps : List TaskStep) (res : List ResultRecord) (fin : List TaskStep),
      execLoop exec refl needs_replanning rp fuel steps 0 [] = some (res, fin) →
      fin.length = steps.length) :=
  ⟨fun _ => rfl,
    fun exec refl rp fuel steps res fin h =>
      execLoop_noReplan_length exec refl rp fuel steps 0 [] res fin h⟩

/-- C8 witness: the amended theorem applied to a concrete reflection and
a concrete one-step run. -/
theorem C8_witness :
    needs_replanning "plain error outcome" = false ∧
    (execLoop execute_step reflect_on_step needs_replanning replan_task 1
        [demoPending] 0 [] =
      some ([recordOf execute_step reflect_on_step demoPending],
        [stepDoneOf execute_step reflect_on_step demoPending]) →
      [stepDoneOf execute_step reflect_on_step demoPending].length =
        [demoPending].length) :=
  ⟨C8_default_policy_never_replans.1 "plain error outcome",
    fun h => C8_default_policy_never_replans.2 execute_step reflect_on_step
      replan_task 1 [demoPending] _ _ h⟩

/-! ### Claim C6 -/

theorem execLoop_alwaysReplan_none (exec : TaskStep → String)
    (refl : String → String) :
    ∀ (fuel : Nat) (steps : List TaskStep) (i : Nat)
      (results : List ResultRecord), i < steps.length →
      execLoop exec refl alwaysReplan replanOne fuel steps i results = none := by
  intro fuel
  induction fuel with
  | zero =>
    intro steps i results h
    exact execLoop_zero exec refl alwaysReplan replanOne steps i results h
  | succ f ih =>
    intro steps i results h
    rw [execLoop_succ exec refl alwaysReplan replanOne f steps i results h]
    apply ih
    simp only [alwaysReplan, if_true, List.length_append, List.length_set, replanOne,
      List.length_cons, List.length_nil]
    omega

/-- C6 counterexample: the engine has no replanning bound and no
`ReplanLimitExceeded` condition — under a reflection policy that signals
replanning after every step and a replanner that supplies one fresh step
per round, the step loop of `execute_task` never finishes for any number
of iterations, instead of reaching a `failed` state within a configured
limit. -/
theorem C6_counterexample :
    ¬ taskTerminates execute_step reflect_on_step alwaysReplan replanOne
      [demoPending] := by
  rintro ⟨fuel, r, hr⟩
  rw [execLoop_alwaysReplan_none execute_step reflect_on_step fuel
    [demoPending] 0 [] (by simp)] at hr
  exact Option.noConfusion hr

theorem execLoop_noReplan_terminates (exec : TaskStep → String)
    (refl : String → String) (rp : List ResultRecord → List TaskStep) :
    ∀ (fuel : Nat) (steps : List TaskStep) (i : Nat)
      (results : List ResultRecord), steps.length ≤ i + fuel →
      ∃ res fin,
        execLoop exec refl needs_replanning rp fuel steps i results =
          some (res, fin) ∧
        fin.length = steps.length ∧
        res.length = results.length + (steps.length - i) := by
  intro fuel
  induction fuel with
  | zero =>
    intro steps i results hle
    have h : ¬ i < steps.length := by omega
    exact ⟨results, steps,
      execLoop_stop exec refl needs_replanning rp 0 steps i results h, rfl,
      by omega⟩
  | succ f ih =>
    intro steps i results hle
    by_cases h : i < steps.length
    · rw [execLoop_succ exec refl needs_replanning rp f steps i results h]
      simp only [needs_replanning, Bool.false_eq_true, if_false]
      obtain ⟨res, fin, heq, hfin, hres⟩ :=
        ih (steps.set i (stepDoneOf exec refl (steps.get ⟨i, h⟩))) (i + 1)
          (results ++ [recordOf exec refl (steps.get ⟨i, h⟩)])
          (by simp only [List.length_set]; omega)
      refine ⟨res, fin, heq, ?_, ?_⟩
      · rw [hfin, List.length_set]
      · rw [hres, List.length_append, List.length_set]
        simp only [List.length_cons, List.length_nil]
        omega
    · exact ⟨results, steps,
        execLoop_stop exec refl needs_replanning rp _ steps i results h, rfl,
        by omega⟩

/-- C6 (amended): under the repository's own reflection policy — which
never signals replanning — and its replanner, `execute_task` terminates
for every registered task, in at most one pass over the step list; but
no configured replanning limit and no `ReplanLimitExceeded` condition
exist, and a policy that always requested replanning with a non-empty
plan would make the loop run forever. -/
theorem C6_default_run_terminates (tasks : TaskStore) (tid : String)
    (steps : List TaskStep) (h : lookupTask tasks tid = some steps) :
    ∃ rr store,
      execute_task execute_step reflect_on_step needs_replanning replan_task
        steps.length tasks tid = Except.ok (some (rr, store)) ∧
      rr.status = "success" := by
  obtain ⟨res, fin, heq, hfin, hres⟩ :=
    execLoop_noReplan_terminates execute_step reflect_on_step replan_task
      steps.length steps 0 [] (by omega)
  unfold execute_task
  simp only [h, heq]
  exact ⟨⟨"success", res⟩, setTask tasks tid fin, rfl, rfl⟩

/-- C6 witness: the amended theorem applied to a concrete one-step
task store. -/
theorem C6_witness :
    lookupTask [("t1", [demoPending])] "t1" = some [demoPending] ∧
    ∃ rr store,
      execute_task execute_step reflect_on_step needs_replanning replan_task
        [demoPending].length [("t1", [demoPending])] "t1" =
        Except.ok (some (rr, store)) ∧
      rr.status = "success" :=
  ⟨rfl, C6_default_run_terminates [("t1", [demoPending])] "t1" [demoPending] rfl⟩

/-! ### Claim C5 -/

/-- C5 counterexample: a task whose single step is already marked
`completed` is not resumed after it — `execute_task` starts again at the
first step, re-executes it (overwriting its observation and reflection)
and returns one result record for it, where the claim predicts the run
would begin after the completed prefix and produce none. -/
theorem C5_counterexample :
    execute_task execute_step reflect_on_step needs_replanning replan_task 1
      [("t1", [demoDone])] "t1" =
    Except.ok (some
      (⟨"success",
        [⟨"ls /tmp", "list files", "Step execution result", "Step reflection"⟩]⟩,
      [("t1",
        [⟨"ls /tmp", "list files", some "Step execution result",
          some "Step reflection", "completed"⟩])])) := rfl

/-- C5 (amended): for every task whose step list has a prefix of steps
already marked `completed`, `execute_task` iterates from the first step
of the list regardless, so already-completed steps are executed again and
the run produces one result per step of the whole list, not only per
remaining step. -/
theorem C5_restarts_from_first_step (steps : List TaskStep) (k : Nat)
    (hk : k ≤ steps.length)
    (hcomp : ∀ j (hj : j < steps.length), j < k →
      (steps.get ⟨j, hj⟩).status = "completed") :
    ∃ res fin,
      execLoop execute_step reflect_on_step needs_replanning replan_task
        steps.length steps 0 [] = some (res, fin) ∧
      res.length = steps.length := by
  obtain ⟨res, fin, heq, hfin, hres⟩ :=
    execLoop_noReplan_terminates execute_step reflect_on_step replan_task
      steps.length steps 0 [] (by omega)
  exact ⟨res, fin, heq, by simpa using hres⟩

/-- C5 witness: the amended theorem applied to a task consisting of one
already-completed step. -/
theorem C5_witness :
    1 ≤ [demoDone].length ∧
    ∃ res fin,
      execLoop execute_step reflect_on_step needs_replanning replan_task
        [demoDone].length [demoDone] 0 [] = some (res, fin) ∧
      res.length = [demoDone].length :=
  ⟨by simp,
    C5_restarts_from_first_step [demoDone] 1 (by simp)
      (by
        intro j hj hlt
        simp only [List.length_cons, List.length_nil] at hj
        have hj0 : j = 0 := by omega
        subst hj0
        rfl)⟩

/-! ### Claim C9 -/

/-- C9: `get_task_status` is computed purely from the looked-up step
list — unknown ids fail with a lookup error, a task none of whose steps
are completed is `pending`, a (nonempty) task all of whose steps are
completed is `completed`, and a task with both completed and
non-completed steps is `in_progress`; two stores whose lookups agree get
the same answer, and the function takes the store as a value and returns
only a status, so repeated calls can change neither the answer nor any
task state. -/
theorem C9_status_is_computed :
    (∀ (tasks : TaskStore) (tid : String), lookupTask tasks tid = none →
      ∃ m, get_task_status tasks tid = Except.error m) ∧
    (∀ (tasks tasks2 : TaskStore) (tid tid2 : String) (steps : List TaskStep),
      lookupTask tasks tid = some steps → lookupTask tasks2 tid2 = some steps →
      get_task_status tasks tid = get_task_status tasks2 tid2) ∧
    (∀ (tasks : TaskStore) (tid : String) (steps : List TaskStep),
      lookupTask tasks tid = some steps →
      ((∀ s ∈ steps, s.status ≠ "completed") →
        get_task_status tasks tid = Except.ok TaskStatus.pending) ∧
      ((∃ s ∈ steps, s.status = "completed") →
        (∀ s ∈ steps, s.status = "completed") →
        get_task_status tasks tid = Except.ok TaskStatus.completed) ∧
      ((∃ s ∈ steps, s.status = "completed") →
        (∃ s ∈ steps, s.status ≠ "completed") →
        get_task_status tasks tid = Except.ok TaskStatus.in_progress)) := by
  refine ⟨?_, ?_, ?_⟩
  · intro tasks tid h
    unfold get_task_status
    simp only [h]
    exact ⟨_, rfl⟩
  · intro tasks tasks2 tid tid2 steps h1 h2
    unfold get_task_status
    simp only [h1, h2]
  · intro tasks tid steps h
    refine ⟨?_, ?_, ?_⟩
    · intro hall
      have hfil : steps.filter (fun s => s.status == "completed") = [] := by
        rw [List.filter_eq_nil]
        intro a ha
        simp only [beq_iff_eq]
        exact hall a ha
      unfold get_task_status
      by_cases hemp : steps.isEmpty
      · simp [h, hemp]
      · simp [h, hemp, hfil]
    · intro hex hall
      have hne : steps ≠ [] := by
        rintro rfl
        rcases hex with ⟨s, hs, _⟩
        cases hs
      have hfil : steps.filter (fun s => s.status == "completed") = steps := by
        rw [List.filter_eq_self]
        intro a ha
        simp only [beq_iff_eq]
        exact hall a ha
      have hlen0 : steps.length ≠ 0 := by
        intro h0
        exact hne (List.length_eq_zero.mp h0)
      unfold get_task_status
      simp [h, List.isEmpty_iff, hne, hfil, hlen0]
    · intro hex hex2
      have hne : steps ≠ [] := by
        rintro rfl
        rcases hex with ⟨s, hs, _⟩
        cases hs
      have hc0 : (steps.filter (fun s => s.status == "completed")).length ≠ 0 := by
        intro h0
        rw [List.length_eq_zero, List.filter_eq_nil] at h0
        rcases hex with ⟨s, hs, hs2⟩
        exact (h0 s hs) (by simp [beq_iff_eq, hs2])
      have hclen : (steps.filter (fun s => s.status == "completed")).length ≠
          steps.length := by
        have hlt : (steps.filter (fun s => s.status == "completed")).length <
            steps.length := by
          rw [List.length_filter_lt_length_iff_exists]
          rcases hex2 with ⟨s, hs, hs2⟩
          exact ⟨s, hs, by simp [beq_iff_eq]; exact hs2⟩
        omega
      unfold get_task_status
      simp [h, List.isEmpty_iff, hne, hc0, hclen]

/-- C9 witness: the theorem applied to an unknown id and to concrete
pending, completed and mixed tasks. -/
theorem C9_witness :
    (∃ m, get_task_status [] "nope" = Except.error m) ∧
    get_task_status [("a", [demoPending])] "a" = Except.ok TaskStatus.pending ∧
    get_task_status [("b", [demoDone])] "b" = Except.ok TaskStatus.completed ∧
    get_task_status [("c", [demoDone, demoPending])] "c" =
      Except.ok TaskStatus.in_progress :=
  ⟨C9_status_is_computed.1 [] "nope" rfl,
    ((C9_status_is_computed.2.2 [("a", [demoPending])] "a" [demoPending]
      rfl).1 (by decide)),
    ((C9_status_is_computed.2.2 [("b", [demoDone])] "b" [demoDone]
      rfl).2.1 (by decide) (by decide)),
    ((C9_status_is_computed.2.2 [("c", [demoDone, demoPending])] "c"
      [demoDone, demoPending] rfl).2.2 (by decide) (by decide))⟩

/-! ### Claim C7 -/

theorem execLoop_success_inv (exec : TaskStep → String) (refl : String → String)
    (nr : String → Bool) (rp : List ResultRecord → List TaskStep) :
    ∀ (fuel : Nat) (steps : List TaskStep) (i : Nat)
      (results res : List ResultRecord) (fin : List TaskStep),
      execLoop exec refl nr rp fuel steps i results = some (res, fin) →
      results.length = i → i ≤ steps.length →
      (∀ j (hj : j < steps.length), j < i →
        (steps.get ⟨j, hj⟩).status = "completed") →
      (∀ j (hj : j < results.length) (hj2 : j < steps.length),
        (results.get ⟨j, hj⟩).action = (steps.get ⟨j, hj2⟩).action ∧
        (results.get ⟨j, hj⟩).thought = (steps.get ⟨j, hj2⟩).thought) →
      res.length = fin.length ∧
      (∀ j (hj : j < fin.length), (fin.get ⟨j, hj⟩).status = "completed") ∧
      (∀ j (hj : j < res.length) (hj2 : j < fin.length),
        (res.get ⟨j, hj⟩).action = (fin.get ⟨j, hj2⟩).action ∧
        (res.get ⟨j, hj⟩).thought = (fin.get ⟨j, hj2⟩).thought) := by
  intro fuel
  induction fuel with
  | zero =>
    intro steps i results res fin h hlen hle hcomp hcorr
    by_cases hi : i < steps.length
    · rw [execLoop_zero exec refl nr rp steps i results hi] at h
      exact absurd h (by simp)
    · rw [execLoop_stop exec refl nr rp 0 steps i results hi] at h
      simp only [Option.some.injEq, Prod.mk.injEq] at h
      obtain ⟨hres, hfin⟩ := h
      subst hres
      subst hfin
      have hieq : i = steps.length := by omega
      refine ⟨by omega, ?_, ?_⟩
      · intro j hj
        exact hcomp j hj (by omega)
      · intro j hj hj2
        exact hcorr j hj hj2
  | succ f ih =>
    intro steps i results res fin h hlen hle hcomp hcorr
    by_cases hi : i < steps.length
    · rw [execLoop_succ exec refl nr rp f steps i results hi] at h
      set sd := stepDoneOf exec refl (steps.get ⟨i, hi⟩) with hsd
      set rec := recordOf exec refl (steps.get ⟨i, hi⟩) with hrec
      have hnorm : (if nr (refl (exec (steps.get ⟨i, hi⟩)))
          then steps.set i sd ++ rp (results ++ [rec])
          else steps.set i sd) =
          steps.set i sd ++ (if nr (refl (exec (steps.get ⟨i, hi⟩)))
            then rp (results ++ [rec]) else []) := by
        by_cases hb : nr (refl (exec (steps.get ⟨i, hi⟩)))
        · rw [if_pos hb, if_pos hb]
        · rw [if_neg hb, if_neg hb, List.append_nil]
      rw [hnorm] at h
      set ext := if nr (refl (exec (steps.get ⟨i, hi⟩)))
        then rp (results ++ [rec]) else [] with hext
      have hcompNew : ∀ j (hj : j < (steps.set i sd ++ ext).length),
          j < i + 1 → ((steps.set i sd ++ ext).get ⟨j, hj⟩).status = "completed" := by
        intro j hj hji
        have hjlt : j < (steps.set i sd).length := by
          rw [List.length_set]; omega
        rw [List.get_eq_getElem, List.getElem_append_left hjlt]
        by_cases hjeq : j = i
        · subst hjeq
          rw [List.getElem_set_eq hjlt]
          simp [hsd, stepDoneOf]
        · have hjs : j < steps.length := by omega
          rw [List.getElem_set_ne (fun he => hjeq he.symm)]
          have hc := hcomp j hjs (by omega)
          rw [List.get_eq_getElem] at hc
          exact hc
      have hcorrNew : ∀ j (hj : j < (results ++ [rec]).length)
          (hj2 : j < (steps.set i sd ++ ext).length),
          ((results ++ [rec]).get ⟨j, hj⟩).action =
            ((steps.set i sd ++ ext).get ⟨j, hj2⟩).action ∧
          ((results ++ [rec]).get ⟨j, hj⟩).thought =
            ((steps.set i sd ++ ext).get ⟨j, hj2⟩).thought := by
        intro j hj hj2
        have hjle : j < i + 1 := by
          rw [List.length_append] at hj
          simp only [List.length_cons, List.length_nil] at hj
          omega
        have hjlt2 : j < (steps.set i sd).length := by
          rw [List.length_set]; omega
        rw [List.get_eq_getElem, List.get_eq_getElem,
          List.getElem_append_left hjlt2]
        by_cases hjeq : j = i
        · subst hjeq
          rw [List.getElem_concat_length results rec j hlen.symm,
            List.getElem_set_eq hjlt2]
          constructor <;> simp [hsd, hrec, stepDoneOf, recordOf]
        · have hji : j < i := by omega
          have hjr : j < results.length := by omega
          have hjs : j < steps.length := by omega
          rw [List.getElem_append_left hjr,
            List.getElem_set_ne (fun he => hjeq he.symm)]
          have hc := hcorr j hjr hjs
          rw [List.get_eq_getElem, List.get_eq_getElem] at hc
          exact hc
      exact ih (steps.set i sd ++ ext) (i + 1) (results ++ [rec]) res fin h
        (by simp [hlen])
        (by rw [List.length_append, List.length_set]; omega)
        hcompNew hcorrNew
    · rw [execLoop_stop exec refl nr rp _ steps i results hi] at h
      simp only [Option.some.injEq, Prod.mk.injEq] at h
      obtain ⟨hres, hfin⟩ := h
      subst hres
      subst hfin
      refine ⟨by omega, ?_, ?_⟩
      · intro j hj
        exact hcomp j hj (by omega)
      · intro j hj hj2
        exact hcorr j hj hj2

/-- C7: whenever `execute_task` returns with status `success`, the
results list has exactly one record per step of the task's final step
list (as stored back into the task store), in step order — the j-th
result's action is the j-th final step's action — and every step of the
final list is marked `completed`, whatever the step executor and
reflection oracle did. -/
theorem C7_success_result_shape (exec : TaskStep → String)
    (refl : String → String) (nr : String → Bool)
    (rp : List ResultRecord → List TaskStep) (fuel : Nat)
    (tasks : TaskStore) (tid : String) (rr : RunResult) (store : TaskStore)
    (h : execute_task exec refl nr rp fuel tasks tid =
      Except.ok (some (rr, store))) :
    rr.status = "success" ∧
    ∃ fin, lookupTask store tid = some fin ∧
      rr.results.length = fin.length ∧
      (∀ j (hj : j < fin.length), (fin.get ⟨j, hj⟩).status = "completed") ∧
      (∀ j (hj : j < rr.results.length) (hj2 : j < fin.length),
        (rr.results.get ⟨j, hj⟩).action = (fin.get ⟨j, hj2⟩).action) := by
  unfold execute_task at h
  cases hl : lookupTask tasks tid with
  | none => simp [hl] at h
  | some steps =>
    simp only [hl] at h
    cases he : execLoop exec refl nr rp fuel steps 0 [] with
    | none => simp [he] at h
    | some pr =>
      obtain ⟨res, fin⟩ := pr
      simp only [he, Except.ok.injEq, Option.some.injEq, Prod.mk.injEq] at h
      obtain ⟨h1, h2⟩ := h
      subst h2
      have main := execLoop_success_inv exec refl nr rp fuel steps 0 [] res fin
        he rfl (by omega)
        (fun j hj hlt => absurd hlt (by omega))
        (fun j hj hj2 => absurd hj (by simp))
      rw [← h1]
      exact ⟨rfl, fin, lookupTask_setTask tasks tid fin, main.1, main.2.1,
        fun j hj hj2 => (main.2.2 j hj hj2).1⟩

/-- C7 witness: the theorem applied to a concrete successful one-step
run under the repository's stub oracles. -/
theorem C7_witness :
    execute_task execute_step reflect_on_step needs_replanning replan_task 1
      [("t1", [demoPending])] "t1" =
      Except.ok (some
        (⟨"success", [recordOf execute_step reflect_on_step demoPending]⟩,
        [("t1", [stepDoneOf execute_step reflect_on_step demoPending])])) ∧
    (⟨"success",
      [recordOf execute_step reflect_on_step demoPending]⟩ : RunResult).status =
      "success" ∧
    ∃ fin,
      lookupTask [("t1", [stepDoneOf execute_step reflect_on_step demoPending])]
        "t1" = some fin ∧
      (⟨"success",
        [recordOf execute_step reflect_on_step demoPending]⟩ :
          RunResult).results.length = fin.length ∧
      (∀ j (hj : j < fin.length), (fin.get ⟨j, hj⟩).status = "completed") ∧
      (∀ j (hj : j < (⟨"success",
          [recordOf execute_step reflect_on_step demoPending]⟩ :
            RunResult).results.length) (hj2 : j < fin.length),
        ((⟨"success",
          [recordOf execute_step reflect_on_step demoPending]⟩ :
            RunResult).results.get ⟨j, hj⟩).action =
          (fin.get ⟨j, hj2⟩).action) :=
  ⟨rfl,
    (C7_success_result_shape execute_step reflect_on_step needs_replanning
      replan_task 1 [("t1", [demoPending])] "t1" _ _ rfl).1,
    (C7_success_result_shape execute_step reflect_on_step needs_replanning
      replan_task 1 [("t1", [demoPending])] "t1" _ _ rfl).2⟩

end Jarvis
